import Mathlib

/-!
Shallow embedding of the address-book program (`src/main.py`) and proofs
about its birthday-scheduling algorithm, field validators, record
operations and contact store.

Dates are modelled as proleptic-Gregorian calendar dates (the semantics of
Python's `datetime.date`): `ordinal` is the Rata Die day number
(`date.toordinal`), `weekday` the Monday=0 day of week (`date.weekday`),
and date construction / `replace` return `none` exactly where Python
raises `ValueError`.
-/

/-- A calendar date as Python's `datetime.date` holds it: year, month, day. -/
structure PyDate where
  year : Nat
  month : Nat
  day : Nat
deriving DecidableEq, Repr

/-- Gregorian leap-year rule, as used by Python's `datetime`. -/
def isLeap (y : Nat) : Bool :=
  decide ((y % 4 = 0 ∧ y % 100 ≠ 0) ∨ y % 400 = 0)

/-- Length of month `m` of year `y` (Python `calendar` semantics). -/
def daysInMonth (y m : Nat) : Nat :=
  if m = 2 then (if isLeap y then 29 else 28)
  else if m = 4 ∨ m = 6 ∨ m = 9 ∨ m = 11 then 30
  else 31

/-- A (year, month, day) triple is a real calendar date in Python's
supported range (`MINYEAR = 1`, `MAXYEAR = 9999`). -/
def PyDate.valid (d : PyDate) : Bool :=
  decide (1 ≤ d.year ∧ d.year ≤ 9999 ∧ 1 ≤ d.month ∧ d.month ≤ 12 ∧
          1 ≤ d.day ∧ d.day ≤ daysInMonth d.year d.month)

/-- Days in the months of year `y` strictly before month `m`. -/
def daysBeforeMonth (y m : Nat) : Nat :=
  (if 1 < m then 31 else 0) +
  (if 2 < m then daysInMonth y 2 else 0) +
  (if 3 < m then 31 else 0) +
  (if 4 < m then 30 else 0) +
  (if 5 < m then 31 else 0) +
  (if 6 < m then 30 else 0) +
  (if 7 < m then 31 else 0) +
  (if 8 < m then 31 else 0) +
  (if 9 < m then 30 else 0) +
  (if 10 < m then 31 else 0) +
  (if 11 < m then 30 else 0)

/-- 1 for a leap year, 0 otherwise. -/
def leapBit (y : Nat) : Nat := if isLeap y then 1 else 0

/-- Total number of days in the years `1 .. y`. -/
def yearsDays (y : Nat) : Nat :=
  365 * y + y / 4 - y / 100 + y / 400

/-- Rata Die day number of a date, i.e. Python's `date.toordinal()`:
`ordinal ⟨1, 1, 1⟩ = 1`. -/
def ordinal (d : PyDate) : Nat :=
  yearsDays (d.year - 1) + daysBeforeMonth d.year d.month + d.day

/-- Python's `date.weekday()`: Monday = 0 … Sunday = 6. -/
def weekday (d : PyDate) : Nat :=
  (ordinal d + 6) % 7

/-- Python date construction / `date.replace`: yields the date when the
triple is a real calendar date and raises (`none`) otherwise. -/
def checkDate (d : PyDate) : Option PyDate :=
  if d.valid then some d else none

/-- The `strftime("%A")` for a Monday=0 weekday number. -/
def weekdayName (w : Nat) : String :=
  match w with
  | 0 => "Monday"
  | 1 => "Tuesday"
  | 2 => "Wednesday"
  | 3 => "Thursday"
  | 4 => "Friday"
  | 5 => "Saturday"
  | _ => "Sunday"

/-- The `Phone.validate_phone` from the source: length exactly 10 and all
characters decimal digits. -/
def validate_phone (value : String) : Bool :=
  value.data.length == 10 && value.data.all Char.isDigit

/-- One-or-two-digit numeric field of `strptime`'s `%d` / `%m` directives:
the CPython `_strptime` regex tries the two-digit alternatives first and
falls back to a single non-zero digit; `maxv` is 31 for `%d` and 12 for
`%m`. -/
def parseDM (maxv : Nat) (cs : List Char) : Option (Nat × List Char) :=
  match cs with
  | c1 :: c2 :: rest =>
    if c1.isDigit then
      if c2.isDigit then
        if 1 ≤ (c1.toNat - 48) * 10 + (c2.toNat - 48) ∧
           (c1.toNat - 48) * 10 + (c2.toNat - 48) ≤ maxv then
          some ((c1.toNat - 48) * 10 + (c2.toNat - 48), rest)
        else none
      else if c1 = '0' then none else some (c1.toNat - 48, c2 :: rest)
    else none
  | [c1] => if c1.isDigit && c1 != '0' then some (c1.toNat - 48, []) else none
  | [] => none

/-- A literal `.` in the `strptime` format. -/
def parseDot (cs : List Char) : Option (List Char) :=
  match cs with
  | '.' :: rest => some rest
  | _ => none

/-- The `strptime`'s `%Y` directive: exactly four decimal digits. -/
def parseYear4 (cs : List Char) : Option (Nat × List Char) :=
  match cs with
  | y1 :: y2 :: y3 :: y4 :: rest =>
    if y1.isDigit && y2.isDigit && y3.isDigit && y4.isDigit then
      some ((y1.toNat - 48) * 1000 + (y2.toNat - 48) * 100 +
            (y3.toNat - 48) * 10 + (y4.toNat - 48), rest)
    else none
  | _ => none

/-- The `datetime.strptime(value, "%d.%m.%Y")`: full-string match of
day `.` month `.` four-digit year, then construction of the `datetime`
(which rejects impossible calendar dates). `none` models `ValueError`. -/
def strptime_dmY (s : String) : Option PyDate :=
  (parseDM 31 s.data).bind (fun x1 =>
    (parseDot x1.2).bind (fun cs2 =>
      (parseDM 12 cs2).bind (fun x2 =>
        (parseDot x2.2).bind (fun cs4 =>
          (parseYear4 cs4).bind (fun x3 =>
            match x3.2 with
            | [] => checkDate ⟨x3.1, x2.1, x1.1⟩
            | _ => none)))))

/-- The `Birthday.validate_birthday` from the source: true iff `strptime`
with format `%d.%m.%Y` succeeds. -/
def validate_birthday (value : String) : Bool :=
  (strptime_dmY value).isSome

/-- A contact record: the `Name.value`, the list of `Phone.value` strings
in order, and the optional `Birthday.value` string. -/
structure Record where
  name : String
  phones : List String
  birthday : Option String
deriving DecidableEq, Repr

/-- The `Record.remove_phone`: removes every phone equal to `phone`. -/
def Record.remove_phone (r : Record) (phone : String) : Record :=
  { r with phones := r.phones.filter (fun q => q != phone) }

/-- The `Record.remove_phones`: empties the phone list. -/
def Record.remove_phones (r : Record) : Record :=
  { r with phones := [] }

/-- First-occurrence replacement on a list of phone strings. -/
def replaceFirst (l : List String) (o n : String) : List String :=
  match l with
  | [] => []
  | p :: ps => if p = o then n :: ps else p :: replaceFirst ps o n

/-- The `Record.edit_phone` from the source: walks the phone list and assigns
`phone.value = new_phone` at the first phone equal to `old_phone`, then
breaks; no validation of `new_phone` is performed anywhere on this path. -/
def Record.edit_phone (r : Record) (old new : String) : Record :=
  { r with phones := replaceFirst r.phones old new }

/-- The `AddressBook`'s underlying dict, as an insertion-ordered
association list with unique keys (Python 3.7+ dict semantics). -/
abbrev AddressBook := List (String × Record)

/-- The `AddressBook.add_record`: `self.data[record.name.value] = record`; an
existing key is overwritten in place, a new key is appended. -/
def add_record (book : AddressBook) (r : Record) : AddressBook :=
  if book.any (fun e => e.1 == r.name) then
    book.map (fun e => if e.1 == r.name then (e.1, r) else e)
  else book ++ [(r.name, r)]

/-- The `AddressBook.find`: `self.data.get(name, None)`. -/
def AddressBook.find (book : AddressBook) (n : String) : Option Record :=
  match book with
  | [] => none
  | e :: rest => if e.1 == n then some e.2 else AddressBook.find rest n

/-- The `AddressBook.delete`: removes the entry with the given name, no-op if
absent. -/
def AddressBook.delete (book : AddressBook) (n : String) : AddressBook :=
  book.filter (fun e => e.1 != n)

/-- In-place mutation of the record stored under key `n` (Python aliasing:
the record returned by `find` is the one held by the dict). -/
def bookUpdate (book : AddressBook) (n : String) (f : Record → Record) : AddressBook :=
  book.map (fun e => if e.1 == n then (e.1, f e.2) else e)

/-- Lines 116-127 of the source, for one parsed birthday `b` and a
reference date `t`: `replace(year=today.year)`, roll-forward to next year
when already past, and the weekend shift that rebuilds the day-of-month as
`birthday.day + delta_days`. `none` models a `ValueError` escaping from
`get_birthdays_per_week`. -/
def candidateFor (t b : PyDate) : Option PyDate :=
  match checkDate ⟨t.year, b.month, b.day⟩ with
  | none => none
  | some bty =>
    match (if ordinal bty < ordinal t then checkDate ⟨t.year + 1, b.month, b.day⟩ else some bty) with
    | none => none
    | some bty2 =>
      if 4 < weekday bty2 then
        checkDate ⟨bty2.year, bty2.month, b.day + (6 - weekday bty2 + 1)⟩
      else some bty2

/-- Per-record step of the scheduler: `some none` = contact skipped (no
birthday), `some (some c)` = adjusted candidate date `c`, `none` = the
iteration raises. -/
def recordCandidate (t : PyDate) (r : Record) : Option (Option PyDate) :=
  match r.birthday with
  | none => some none
  | some bs =>
    match strptime_dmY bs with
    | none => none
    | some b =>
      match candidateFor t b with
      | none => none
      | some c => some (some c)

/-- The loop of `get_birthdays_per_week`, producing the
`(weekday name, contact name)` pairs appended to `birthdays_by_day` in
iteration order; the bucket label is `(today + timedelta(delta)).strftime("%A")`. -/
def gbpwAux (t : PyDate) (book : List (String × Record)) : Option (List (String × String)) :=
  match book with
  | [] => some []
  | (nm, r) :: rest =>
    match recordCandidate t r with
    | none => none
    | some none => gbpwAux t rest
    | some (some c) =>
      match gbpwAux t rest with
      | none => none
      | some rest' =>
        if (ordinal c : Int) - (ordinal t : Int) ≥ 7 then some rest'
        else
          some ((weekdayName (((ordinal t : Int) + ((ordinal c : Int) - (ordinal t : Int)) + 6) % 7).toNat,
                 nm) :: rest')

/-- The `AddressBook.get_birthdays_per_week`, with the value that the line
`today = datetime.today().date()` obtains from the live clock made an
explicit argument `t`. -/
def get_birthdays_per_week (book : AddressBook) (t : PyDate) : Option (List (String × String)) :=
  gbpwAux t book

/-- An apostrophe character, for rebuilding the source's messages. -/
def sqStr : String := String.singleton (Char.ofNat 39)

/-- The `add_contact` handler: builds `Record(name)`, adds the phone, and
stores the record; a `ValueError` from `Name` or `Phone` is converted by
`input_error` into the message, leaving the book unchanged. -/
def add_contact (n p : String) (book : AddressBook) : String × AddressBook :=
  if n != "" then
    if validate_phone p then ("Contact added.", add_record book ⟨n, [p], none⟩)
    else ("Give me name and phone please.", book)
  else ("Give me name and phone please.", book)

/-- The `change_contact` handler: finds the record, calls
`record.remove_phones()` (which always succeeds), and only then
`record.add_phone(new_phone)`, whose `ValueError` is caught by
`input_error` — after the phone list has already been emptied. -/
def change_contact (n p : String) (book : AddressBook) : String × AddressBook :=
  match AddressBook.find book n with
  | none => ("Contact " ++ sqStr ++ n ++ sqStr ++ " not found.", book)
  | some _ =>
    let b1 := bookUpdate book n (fun r => { r with phones := [] })
    if validate_phone p then
      ("Contact updated.", bookUpdate b1 n (fun r => { r with phones := r.phones ++ [p] }))
    else ("Give me name and phone please.", b1)

/-- The store and record mutations named by the spec's invariant. -/
inductive BookOp where
  | addContact (n p : String)
  | deleteContact (n : String)
  | addPhone (n p : String)
  | removePhone (n p : String)
  | editPhone (n o p : String)
  | addBirthday (n b : String)
deriving DecidableEq, Repr

/-- Whether an operation is the `edit_phone` mutation. -/
def BookOp.isEditPhone : BookOp → Bool
  | .editPhone _ _ _ => true
  | _ => false

/-- Semantics of one operation on the store, as the command layer runs
them: a `ValueError` raised by a validator is caught at the dispatch
boundary, so a failed mutation leaves the store as the exception left it. -/
def applyOp (book : AddressBook) : BookOp → AddressBook
  | .addContact n p => (add_contact n p book).2
  | .deleteContact n => AddressBook.delete book n
  | .addPhone n p =>
    if validate_phone p then bookUpdate book n (fun r => { r with phones := r.phones ++ [p] })
    else book
  | .removePhone n p => bookUpdate book n (fun r => Record.remove_phone r p)
  | .editPhone n o p => bookUpdate book n (fun r => Record.edit_phone r o p)
  | .addBirthday n b =>
    if validate_birthday b then bookUpdate book n (fun r => { r with birthday := some b })
    else book

/-- The spec's store invariant for one record: valid (non-empty) name,
every phone exactly 10 digits, any birthday a real calendar date. -/
def recordWf (r : Record) : Bool :=
  (r.name != "") && r.phones.all validate_phone &&
    (match r.birthday with
     | none => true
     | some b => validate_birthday b)

/-- The spec's store invariant over the whole book. -/
def bookWf (book : AddressBook) : Bool :=
  book.all (fun e => recordWf e.2)

/-- The name-and-birthday part of the store invariant. -/
def recordNB (r : Record) : Bool :=
  (r.name != "") &&
    (match r.birthday with
     | none => true
     | some b => validate_birthday b)

/-- The name-and-birthday part of the invariant over the whole book. -/
def bookNB (book : AddressBook) : Bool :=
  book.all (fun e => recordNB e.2)

/-- Modelled from the spec: the strict `DD.MM.YYYY` pattern the spec
ascribes to `validate_birthday` — two-digit day, literal dot, two-digit
month, literal dot, four-digit year, and the triple a real calendar date. -/
def strictForm (s : String) : Bool :=
  match s.data with
  | [d1, d2, c1, m1, m2, c2, y1, y2, y3, y4] =>
    d1.isDigit && d2.isDigit && (c1 == '.') && m1.isDigit && m2.isDigit && (c2 == '.') &&
    y1.isDigit && y2.isDigit && y3.isDigit && y4.isDigit &&
    PyDate.valid ⟨(y1.toNat - 48) * 1000 + (y2.toNat - 48) * 100 + (y3.toNat - 48) * 10 + (y4.toNat - 48),
                  (m1.toNat - 48) * 10 + (m2.toNat - 48),
                  (d1.toNat - 48) * 10 + (d2.toNat - 48)⟩
  | _ => false

/-- Digit character of a value `k ≤ 9`. -/
def dchar (k : Nat) : Char := Char.ofNat (48 + k)

/-- Two-digit zero-padded decimal rendering. -/
def pad2 (n : Nat) : List Char := [dchar (n / 10), dchar (n % 10)]

/-- Four-digit zero-padded decimal rendering. -/
def pad4 (n : Nat) : List Char :=
  [dchar (n / 1000), dchar (n / 100 % 10), dchar (n / 10 % 10), dchar (n % 10)]

/-! ### Calendar arithmetic lemmas -/

/-- The `checkDate` returns its argument and certifies validity. -/
theorem checkDate_some {d d' : PyDate} (h : checkDate d = some d') :
    d' = d ∧ d.valid = true := by
  unfold checkDate at h
  split at h
  · exact ⟨(Option.some.injEq _ _ ▸ h).symm, by assumption⟩
  · exact absurd h (by simp)

/-- The leap bit, expressed arithmetically. -/
theorem leapBit_eq (y : Nat) :
    leapBit y = if (y % 4 = 0 ∧ y % 100 ≠ 0) ∨ y % 400 = 0 then 1 else 0 := by
  unfold leapBit isLeap
  by_cases h : (y % 4 = 0 ∧ y % 100 ≠ 0) ∨ y % 400 = 0 <;> simp [h]

/-- One more year adds 365 days plus the leap bit of the new year. -/
theorem yearsDays_succ (y : Nat) :
    yearsDays (y + 1) = yearsDays y + 365 + leapBit (y + 1) := by
  have e4 := Nat.succ_div y 4
  have e100 := Nat.succ_div y 100
  have e400 := Nat.succ_div y 400
  have l1 : y / 100 ≤ y / 4 := Nat.div_le_div_left (by norm_num) (by norm_num)
  rw [leapBit_eq]
  unfold yearsDays
  rw [e4, e100, e400]
  split_ifs <;> omega

/-- The `yearsDays` is monotone. -/
theorem yearsDays_mono {a b : Nat} (h : a ≤ b) : yearsDays a ≤ yearsDays b := by
  induction h with
  | refl => exact Nat.le_refl _
  | step h ih =>
    calc yearsDays a ≤ yearsDays _ := ih
      _ ≤ _ := by rw [yearsDays_succ]; omega

/-- Any month prefix plus the month itself fits within the year. -/
theorem daysBeforeMonth_add_le (y m : Nat) (h1 : 1 ≤ m) (h2 : m ≤ 12) :
    daysBeforeMonth y m + daysInMonth y m ≤ 365 + leapBit y := by
  unfold daysBeforeMonth daysInMonth leapBit
  by_cases h : isLeap y = true <;>
    interval_cases m <;> simp [h]

/-- A valid date's ordinal is at most the last ordinal of its year. -/
theorem ordinal_le_yearsDays {d : PyDate} (h : d.valid = true) :
    ordinal d ≤ yearsDays d.year := by
  have hv := of_decide_eq_true h
  obtain ⟨hy1, hy2, hm1, hm2, hd1, hd2⟩ := hv
  have hb := daysBeforeMonth_add_le d.year d.month hm1 hm2
  have hyd : yearsDays d.year = yearsDays (d.year - 1) + 365 + leapBit d.year := by
    have := yearsDays_succ (d.year - 1)
    have he : d.year - 1 + 1 = d.year := by omega
    rw [he] at this
    exact this
  unfold ordinal
  omega

/-- A valid date's ordinal lies strictly after the previous year's end. -/
theorem yearsDays_lt_ordinal {d : PyDate} (h : d.valid = true) :
    yearsDays (d.year - 1) < ordinal d := by
  have hv := of_decide_eq_true h
  obtain ⟨hy1, hy2, hm1, hm2, hd1, hd2⟩ := hv
  unfold ordinal
  omega

/-- A valid date in a strictly later year has a strictly larger ordinal. -/
theorem ordinal_lt_of_year_lt {d1 d2 : PyDate} (h1 : d1.valid = true)
    (h2 : d2.valid = true) (hy : d1.year < d2.year) : ordinal d1 < ordinal d2 :=
  calc ordinal d1 ≤ yearsDays d1.year := ordinal_le_yearsDays h1
    _ ≤ yearsDays (d2.year - 1) := yearsDays_mono (by omega)
    _ < ordinal d2 := yearsDays_lt_ordinal h2

/-- Ordinals are additive in the day field. -/
theorem ordinal_day_add (y m d k : Nat) :
    ordinal ⟨y, m, d + k⟩ = ordinal ⟨y, m, d⟩ + k := by
  unfold ordinal
  ring

/-- The adjusted candidate date never lies before the reference date. -/
theorem candidate_ge {t b c : PyDate} (hv : t.valid = true)
    (hc : candidateFor t b = some c) : ordinal t ≤ ordinal c := by
  unfold candidateFor at hc
  split at hc
  · exact absurd hc (by simp)
  rename_i bty h1
  obtain ⟨hb1, hv1⟩ := checkDate_some h1
  subst hb1
  split at hc
  · exact absurd hc (by simp)
  rename_i bty2 h2
  split at h2
  case _ hroll =>
    obtain ⟨hb2, hv2⟩ := checkDate_some h2
    subst hb2
    have hlt : ordinal t < ordinal (⟨t.year + 1, b.month, b.day⟩ : PyDate) :=
      ordinal_lt_of_year_lt hv hv2 (Nat.lt_succ_self t.year)
    split at hc
    · obtain ⟨hb3, hv3⟩ := checkDate_some hc
      subst hb3
      rw [show (⟨t.year + 1, b.month, b.day⟩ : PyDate).year = t.year + 1 from rfl,
          show (⟨t.year + 1, b.month, b.day⟩ : PyDate).month = b.month from rfl]
      rw [ordinal_day_add]
      omega
    · cases hc
      omega
  case _ hroll =>
    cases h2
    split at hc
    · obtain ⟨hb3, hv3⟩ := checkDate_some hc
      subst hb3
      rw [show (⟨t.year, b.month, b.day⟩ : PyDate).year = t.year from rfl,
          show (⟨t.year, b.month, b.day⟩ : PyDate).month = b.month from rfl]
      rw [ordinal_day_add]
      omega
    · cases hc
      omega

/-- Every contact name in the report is a key of the book. -/
theorem gbpw_keys {t : PyDate} {book : List (String × Record)} {out : List (String × String)}
    (h : gbpwAux t book = some out) : ∀ q ∈ out, q.2 ∈ book.map Prod.fst := by
  induction book generalizing out with
  | nil =>
    unfold gbpwAux at h
    cases h
    simp
  | cons e rest ih =>
    obtain ⟨n0, r0⟩ := e
    unfold gbpwAux at h
    split at h
    · exact absurd h (by simp)
    · intro q hq
      simp only [List.map_cons]
      exact List.mem_cons_of_mem _ (ih h q hq)
    · rename_i c hcand
      split at h
      · exact absurd h (by simp)
      rename_i rest' hrest
      split at h <;> cases h
      · intro q hq
        simp only [List.map_cons]
        exact List.mem_cons_of_mem _ (ih hrest q hq)
      · intro q hq
        simp only [List.map_cons]
        rcases List.mem_cons.mp hq with h1 | h1
        · subst h1
          exact List.mem_cons_self _ _
        · exact List.mem_cons_of_mem _ (ih hrest q h1)

/-- Report membership of a given contact, with unique keys, is decided
exactly by the shifted candidate's distance from today being below 7. -/
theorem gbpw_mem_iff (t : PyDate) (nm : String) (c : PyDate) :
    ∀ (book : List (String × Record)) (out : List (String × String)) (r : Record)
      (bs : String) (b : PyDate),
      (book.map Prod.fst).Nodup → (nm, r) ∈ book → r.birthday = some bs →
      strptime_dmY bs = some b → candidateFor t b = some c →
      gbpwAux t book = some out →
      ((∃ d, (d, nm) ∈ out) ↔ (ordinal c : Int) - (ordinal t : Int) < 7) := by
  intro book
  induction book with
  | nil =>
    intro out r bs b _ hmem _ _ _ _
    exact absurd hmem (List.not_mem_nil _)
  | cons e rest ih =>
    intro out r bs b hnd hmem hb hp hc hout
    obtain ⟨n0, r0⟩ := e
    have hnd1 : n0 ∉ rest.map Prod.fst := by
      simp only [List.map_cons, List.nodup_cons] at hnd
      exact hnd.1
    have hnd2 : (rest.map Prod.fst).Nodup := by
      simp only [List.map_cons, List.nodup_cons] at hnd
      exact hnd.2
    rcases List.mem_cons.mp hmem with he | he
    · injection he with h1 h2
      subst h1
      subst h2
      have hrc : recordCandidate t r = some (some c) := by
        unfold recordCandidate
        split
        · rename_i h0
          rw [h0] at hb
          cases hb
        · rename_i bs' h0
          rw [h0] at hb
          injection hb with hbs
          subst hbs
          split
          · rename_i h1
            rw [h1] at hp
            cases hp
          · rename_i b' h1
            rw [h1] at hp
            injection hp with hb'
            subst hb'
            split
            · rename_i h2
              rw [h2] at hc
              cases hc
            · rename_i c' h2
              rw [h2] at hc
              injection hc with hc'
              subst hc'
              rfl
      unfold gbpwAux at hout
      split at hout
      · rename_i hcc
        rw [hrc] at hcc
        cases hcc
      · rename_i hcc
        rw [hrc] at hcc
        injection hcc with hcc'
        cases hcc'
      · rename_i c0 hcc
        rw [hrc] at hcc
        injection hcc with hcc'
        injection hcc' with hcc2
        subst hcc2
        split at hout
        · exact absurd hout (by simp)
        rename_i rest' hrest
        split at hout <;> cases hout
        · rename_i hdel
          constructor
          · rintro ⟨d, hd⟩
            exact absurd (gbpw_keys hrest _ hd) hnd1
          · intro h7
            exact absurd h7 (by omega)
        · rename_i hdel
          exact iff_of_true ⟨_, List.mem_cons_self _ _⟩ (by omega)
    · have hnm : nm ∈ rest.map Prod.fst := List.mem_map.mpr ⟨(nm, r), he, rfl⟩
      unfold gbpwAux at hout
      split at hout
      · exact absurd hout (by simp)
      · exact ih out r bs b hnd2 he hb hp hc hout
      · rename_i c0 hcc
        split at hout
        · exact absurd hout (by simp)
        rename_i rest' hrest
        have hih := ih rest' r bs b hnd2 he hb hp hc hrest
        split at hout <;> cases hout
        · exact hih
        · rw [← hih]
          constructor
          · rintro ⟨d, hd⟩
            rcases List.mem_cons.mp hd with h1 | h1
            · injection h1 with hd1 hd2
              exact absurd (hd2 ▸ hnm) hnd1
            · exact ⟨d, h1⟩
          · rintro ⟨d, hd⟩
            exact ⟨d, List.mem_cons_of_mem _ hd⟩

/-- C2: a contact with a set birthday is included in the report if and
only if its (possibly weekend-shifted) candidate date `c` satisfies
`0 ≤ (c - today).days < 7`: the half-open window [today, today + 7 days). -/
theorem C2_window (t : PyDate) (book : AddressBook) (out : List (String × String))
    (nm : String) (r : Record) (bs : String) (b c : PyDate)
    (hv : t.valid = true) (hnd : (book.map Prod.fst).Nodup)
    (hmem : (nm, r) ∈ book) (hb : r.birthday = some bs)
    (hp : strptime_dmY bs = some b) (hc : candidateFor t b = some c)
    (hout : get_birthdays_per_week book t = some out) :
    (∃ d, (d, nm) ∈ out) ↔
      (0 ≤ (ordinal c : Int) - (ordinal t : Int) ∧
       (ordinal c : Int) - (ordinal t : Int) < 7) := by
  have hge := candidate_ge hv hc
  have h := gbpw_mem_iff t nm c book out r bs b hnd hmem hb hp hc hout
  constructor
  · intro hx
    exact ⟨by omega, h.mp hx⟩
  · intro hx
    exact h.mpr hx.2

/-- Witness for C2: today = Monday 2024-06-03, contact Ann with birthday
05.06.1990, candidate Wednesday 2024-06-05, delta 2, included. -/
theorem C2_window_witness : ∃ d, (d, "Ann") ∈ [("Wednesday", "Ann")] :=
  (C2_window ⟨2024, 6, 3⟩ [("Ann", ⟨"Ann", ["1234567890"], some "05.06.1990"⟩)]
      [("Wednesday", "Ann")] "Ann" ⟨"Ann", ["1234567890"], some "05.06.1990"⟩
      "05.06.1990" ⟨1990, 6, 5⟩ ⟨2024, 6, 5⟩ (by decide) (by decide) (by decide)
      (by decide) (by decide) (by decide) (by decide)).mpr (by decide)

/-- C1: the weekend shift is claimed to move every Saturday/Sunday
candidate to the following Monday, including near month boundaries. At
today = Monday 2024-08-26 the candidate for birthday 31.08.1990 is
Saturday 2024-08-31 (weekday 5) and the following Monday 2024-09-02
exists, yet the scheduler raises: `replace(day=31+2)` builds day 33 of
August, so the whole computation crashes instead of bucketing Monday. -/
theorem C1_month_boundary_eval :
    weekday ⟨2024, 8, 31⟩ = 5 ∧ weekday ⟨2024, 9, 2⟩ = 0 ∧
    get_birthdays_per_week [("Eve", ⟨"Eve", [], some "31.08.1990"⟩)] ⟨2024, 8, 26⟩ = none := by
  decide

/-- C3: with today = Monday 2024-06-03 and Bob born 08.06.1995 (Saturday
2024-06-08, shifted to Monday 2024-06-10, delta 7), the report is empty:
Bob appears in no bucket. -/
theorem C3_scenarioB :
    get_birthdays_per_week [("Bob", ⟨"Bob", [], some "08.06.1995"⟩)] ⟨2024, 6, 3⟩ = some [] := by
  decide

/-- C4: a stored Feb-29 birthday is accepted by the validator, but running
the scheduler with a non-leap "today" year crashes: `replace(year=2023)`
on 29.02.2000 raises, so the computation yields no report at all rather
than a deterministic fallback date. -/
theorem C4_feb29_eval :
    validate_birthday "29.02.2000" = true ∧
    get_birthdays_per_week [("Leo", ⟨"Leo", [], some "29.02.2000"⟩)] ⟨2023, 6, 1⟩ = none := by
  decide

/-- The `replaceFirst` is the identity when the sought value is absent. -/
theorem replaceFirst_not_mem {l : List String} {o n : String} (h : o ∉ l) :
    replaceFirst l o n = l := by
  induction l with
  | nil => rfl
  | cons p ps ih =>
    simp only [List.mem_cons, not_or] at h
    unfold replaceFirst
    rw [if_neg (fun hp => h.1 hp.symm), ih h.2]

/-- The `replaceFirst` rewrites exactly the first occurrence. -/
theorem replaceFirst_first {l1 l2 : List String} {o n : String} (h : o ∉ l1) :
    replaceFirst (l1 ++ o :: l2) o n = l1 ++ n :: l2 := by
  induction l1 with
  | nil =>
    simp only [List.nil_append]
    unfold replaceFirst
    rw [if_pos rfl]
  | cons p ps ih =>
    simp only [List.mem_cons, not_or] at h
    simp only [List.cons_append]
    unfold replaceFirst
    rw [if_neg (fun hp => h.1 hp.symm), ih h.2]

/-- C5 counterexample: `edit_phone` is claimed to fail whenever the new
phone is invalid, yet with the invalid string "abc" it succeeds and the
invalid value ends up stored. -/
theorem C5_cex :
    validate_phone "abc" = false ∧
    Record.edit_phone ⟨"Ann", ["1234567890"], none⟩ "1234567890" "abc" =
      ⟨"Ann", ["abc"], none⟩ := by
  decide

/-- C5 (amended): `edit_phone` performs no validation of the new value; it
always succeeds, keeps name and birthday, replaces the first phone equal
to `old` with `new` verbatim, and is a no-op when `old` is absent. -/
theorem C5_edit_phone_amended (r : Record) (o n : String) :
    ((Record.edit_phone r o n).name = r.name ∧
     (Record.edit_phone r o n).birthday = r.birthday) ∧
    (o ∉ r.phones → Record.edit_phone r o n = r) ∧
    (∀ l1 l2, r.phones = l1 ++ o :: l2 → o ∉ l1 →
      (Record.edit_phone r o n).phones = l1 ++ n :: l2) := by
  refine ⟨⟨rfl, rfl⟩, ?_, ?_⟩
  · intro h
    unfold Record.edit_phone
    rw [replaceFirst_not_mem h]
  · intro l1 l2 hsplit h1
    show replaceFirst r.phones o n = l1 ++ n :: l2
    rw [hsplit, replaceFirst_first h1]

/-- Witness for C5 (amended) on a concrete record: the only phone equal to
`old` is replaced by the new value. -/
theorem C5_edit_phone_amended_witness :
    (Record.edit_phone ⟨"Ann", ["1234567890"], none⟩ "1234567890" "0987654321").phones =
      [] ++ "0987654321" :: [] :=
  (C5_edit_phone_amended ⟨"Ann", ["1234567890"], none⟩ "1234567890" "0987654321").2.2 [] []
    (by decide) (by decide)

/-- A filtered list keeps any per-element boolean invariant. -/
theorem all_filter_of_all {α : Type} {l : List α} {p q : α → Bool}
    (h : l.all p = true) : (l.filter q).all p = true := by
  rw [List.all_eq_true] at h ⊢
  intro e he
  exact h e (List.mem_filter.mp he).1

/-- The `bookUpdate` preserves a per-record invariant preserved by `f`. -/
theorem bookUpdate_all {book : AddressBook} {p : Record → Bool} {n : String}
    {f : Record → Record} (h : book.all (fun e => p e.2) = true)
    (hf : ∀ r, p r = true → p (f r) = true) :
    (bookUpdate book n f).all (fun e => p e.2) = true := by
  rw [List.all_eq_true] at h ⊢
  intro e he
  unfold bookUpdate at he
  obtain ⟨a, ha, hae⟩ := List.mem_map.mp he
  subst hae
  by_cases hk : (a.1 == n) = true
  · rw [if_pos hk]
    exact hf a.2 (h a ha)
  · rw [if_neg hk]
    exact h a ha

/-- The `add_record` preserves a per-record invariant satisfied by the record. -/
theorem add_record_all {book : AddressBook} {p : Record → Bool} {r : Record}
    (h : book.all (fun e => p e.2) = true) (hr : p r = true) :
    (add_record book r).all (fun e => p e.2) = true := by
  unfold add_record
  split
  · rw [List.all_eq_true] at h ⊢
    intro e he
    obtain ⟨a, ha, hae⟩ := List.mem_map.mp he
    subst hae
    by_cases hk : (a.1 == r.name) = true
    · rw [if_pos hk]
      exact hr
    · rw [if_neg hk]
      exact h a ha
  · rw [List.all_append, h]
    simp [hr]

/-- The second component of the `add_contact` handler: the book is
extended only when both validators pass. -/
theorem add_contact_snd (n p : String) (book : AddressBook) :
    (add_contact n p book).2 =
      if (n != "") && validate_phone p then add_record book ⟨n, [p], none⟩ else book := by
  unfold add_contact
  by_cases h1 : (n != "") = true <;> by_cases h2 : validate_phone p = true <;>
    simp [h1, h2]

/-- Every operation other than `edit_phone` preserves the full invariant. -/
theorem applyOp_wf {book : AddressBook} (op : BookOp)
    (h : bookWf book = true) (hop : op.isEditPhone = false) :
    bookWf (applyOp book op) = true := by
  cases op with
  | addContact n p =>
    show bookWf (add_contact n p book).2 = true
    rw [add_contact_snd]
    split
    · rename_i hcond
      rw [Bool.and_eq_true] at hcond
      refine add_record_all h ?_
      unfold recordWf
      simp [hcond.1, hcond.2]
    · exact h
  | deleteContact n => exact all_filter_of_all h
  | addPhone n p =>
    show bookWf (if validate_phone p then _ else book) = true
    split
    · rename_i hp
      refine bookUpdate_all h ?_
      intro r hr
      unfold recordWf at hr ⊢
      simp only [Bool.and_eq_true] at hr ⊢
      refine ⟨⟨hr.1.1, ?_⟩, hr.2⟩
      rw [List.all_append, hr.1.2]
      simp [hp]
    · exact h
  | removePhone n p =>
    show (bookUpdate book n (fun r => Record.remove_phone r p)).all (fun e => recordWf e.2) = true
    refine bookUpdate_all h ?_
    intro r hr
    unfold recordWf at hr ⊢
    simp only [Bool.and_eq_true] at hr ⊢
    exact ⟨⟨hr.1.1, all_filter_of_all hr.1.2⟩, hr.2⟩
  | editPhone n o p => exact absurd hop (by simp [BookOp.isEditPhone])
  | addBirthday n b =>
    show bookWf (if validate_birthday b then _ else book) = true
    split
    · rename_i hb
      refine bookUpdate_all h ?_
      intro r hr
      unfold recordWf at hr ⊢
      simp only [Bool.and_eq_true] at hr ⊢
      exact ⟨hr.1, hb⟩
    · exact h

/-- Every operation, `edit_phone` included, preserves the name-and-birthday
part of the invariant. -/
theorem applyOp_nb {book : AddressBook} (op : BookOp)
    (h : bookNB book = true) : bookNB (applyOp book op) = true := by
  cases op with
  | addContact n p =>
    show bookNB (add_contact n p book).2 = true
    rw [add_contact_snd]
    split
    · rename_i hcond
      rw [Bool.and_eq_true] at hcond
      refine add_record_all h ?_
      unfold recordNB
      simp [hcond.1]
    · exact h
  | deleteContact n => exact all_filter_of_all h
  | addPhone n p =>
    show bookNB (if validate_phone p then _ else book) = true
    split
    · refine bookUpdate_all h ?_
      intro r hr
      exact hr
    · exact h
  | removePhone n p =>
    show (bookUpdate book n (fun r => Record.remove_phone r p)).all (fun e => recordNB e.2) = true
    refine bookUpdate_all h ?_
    intro r hr
    exact hr
  | editPhone n o p =>
    show (bookUpdate book n (fun r => Record.edit_phone r o p)).all (fun e => recordNB e.2) = true
    refine bookUpdate_all h ?_
    intro r hr
    exact hr
  | addBirthday n b =>
    show bookNB (if validate_birthday b then _ else book) = true
    split
    · rename_i hb
      refine bookUpdate_all h ?_
      intro r hr
      unfold recordNB at hr ⊢
      simp only [Bool.and_eq_true] at hr ⊢
      exact ⟨hr.1, hb⟩
    · exact h

/-- The full invariant holds after any edit-free operation sequence. -/
theorem foldl_wf (ops : List BookOp) :
    ∀ book : AddressBook, bookWf book = true →
      ops.all (fun op => !op.isEditPhone) = true →
      bookWf (ops.foldl applyOp book) = true := by
  induction ops with
  | nil =>
    intro book h _
    exact h
  | cons op rest ih =>
    intro book h hall
    simp only [List.all_cons, Bool.and_eq_true] at hall
    rw [List.foldl_cons]
    exact ih _ (applyOp_wf op h (by simpa using hall.1)) hall.2

/-- The name-and-birthday invariant holds after any operation sequence. -/
theorem foldl_nb (ops : List BookOp) :
    ∀ book : AddressBook, bookNB book = true →
      bookNB (ops.foldl applyOp book) = true := by
  induction ops with
  | nil =>
    intro book h
    exact h
  | cons op rest ih =>
    intro book h
    rw [List.foldl_cons]
    exact ih _ (applyOp_nb op h)

/-- C6 counterexample: after adding Ann with a valid phone and then
`edit_phone`-ing it to the invalid string "x", the reachable store
violates the claimed invariant: a stored phone is not 10 digits. -/
theorem C6_cex :
    bookWf ([BookOp.addContact "Ann" "1234567890",
             BookOp.editPhone "Ann" "1234567890" "x"].foldl applyOp []) = false := by
  decide

/-- C6 (amended): operation sequences avoiding `edit_phone` preserve the
full store invariant from the empty store, and every sequence —
`edit_phone` included — keeps names non-empty and birthdays real calendar
dates; only `edit_phone` can store an arbitrary phone string. -/
theorem C6_invariant_amended (ops : List BookOp) :
    (ops.all (fun op => !op.isEditPhone) = true →
      bookWf (ops.foldl applyOp []) = true) ∧
    bookNB (ops.foldl applyOp []) = true :=
  ⟨fun h => foldl_wf ops [] rfl h, foldl_nb ops [] rfl⟩

/-- Witness for C6 (amended) on a concrete edit-free sequence. -/
theorem C6_invariant_amended_witness :
    bookWf ([BookOp.addContact "Ann" "1234567890",
             BookOp.addBirthday "Ann" "05.06.1990"].foldl applyOp []) = true :=
  (C6_invariant_amended [BookOp.addContact "Ann" "1234567890",
             BookOp.addBirthday "Ann" "05.06.1990"]).1 (by decide)

/-- C7 counterexample: the output of `get_birthdays_per_week` depends on
the date obtained from the internal `datetime.today()` read (modelled as
the argument `t`): the same store yields different reports at two clock
readings, so the computation is not a function of the store alone and the
claimed injected-parameter reading of the source is false. -/
theorem C7_cex :
    get_birthdays_per_week [("Ann", ⟨"Ann", [], some "05.06.1990"⟩)] ⟨2024, 6, 3⟩ ≠
      get_birthdays_per_week [("Ann", ⟨"Ann", [], some "05.06.1990"⟩)] ⟨2024, 7, 1⟩ := by
  decide

/-- C7 (amended): given the date read from the clock at the start of
`get_birthdays_per_week`, the computation is a pure deterministic function
of the store's (name, birthday) snapshot — phones and everything else are
irrelevant, and equal snapshots with equal reference dates give equal
reports. -/
theorem C7_deterministic (t : PyDate) :
    ∀ b1 b2 : AddressBook,
      b1.map (fun e => (e.1, e.2.birthday)) = b2.map (fun e => (e.1, e.2.birthday)) →
      get_birthdays_per_week b1 t = get_birthdays_per_week b2 t := by
  intro b1
  induction b1 with
  | nil =>
    intro b2 h
    cases b2 with
    | nil => rfl
    | cons e rest => exact absurd h (by simp)
  | cons e rest ih =>
    intro b2 h
    cases b2 with
    | nil => exact absurd h (by simp)
    | cons e2 rest2 =>
      obtain ⟨n1, r1⟩ := e
      obtain ⟨n2, r2⟩ := e2
      simp only [List.map_cons, List.cons.injEq, Prod.mk.injEq] at h
      obtain ⟨⟨hn, hbd⟩, hrest⟩ := h
      subst hn
      have ht := ih rest2 hrest
      have hrc : recordCandidate t r1 = recordCandidate t r2 := by
        unfold recordCandidate
        rw [hbd]
      unfold get_birthdays_per_week at ht ⊢
      unfold gbpwAux
      rw [hrc, ht]

/-- Witness for C7 (amended): two stores equal up to phone lists give the
same report. -/
theorem C7_deterministic_witness :
    get_birthdays_per_week [("Ann", ⟨"Ann", ["1234567890"], some "05.06.1990"⟩)] ⟨2024, 6, 3⟩ =
      get_birthdays_per_week [("Ann", ⟨"Ann", [], some "05.06.1990"⟩)] ⟨2024, 6, 3⟩ :=
  C7_deterministic ⟨2024, 6, 3⟩
    [("Ann", ⟨"Ann", ["1234567890"], some "05.06.1990"⟩)]
    [("Ann", ⟨"Ann", [], some "05.06.1990"⟩)] (by decide)

/-- Looking up the key of a freshly stored record returns that record. -/
theorem find_add_record (book : AddressBook) (r : Record) :
    AddressBook.find (add_record book r) r.name = some r := by
  induction book with
  | nil =>
    unfold add_record
    rw [if_neg (by simp)]
    simp [AddressBook.find]
  | cons e rest ih =>
    unfold add_record
    by_cases h : (e.1 == r.name) = true
    · rw [if_pos (by simp [List.any_cons, h])]
      simp only [List.map_cons, if_pos h]
      unfold AddressBook.find
      rw [if_pos h]
    · by_cases ha : rest.any (fun e2 => e2.1 == r.name) = true
      · rw [if_pos (by simp [List.any_cons, h, ha])]
        simp only [List.map_cons, if_neg h]
        unfold AddressBook.find
        rw [if_neg h]
        have hx := ih
        unfold add_record at hx
        rw [if_pos ha] at hx
        exact hx
      · rw [if_neg (by simp [List.any_cons, h, ha])]
        simp only [List.cons_append]
        unfold AddressBook.find
        rw [if_neg h]
        have hx := ih
        unfold add_record at hx
        rw [if_neg ha] at hx
        exact hx

/-- C9: adding a contact built from a valid name and a valid phone through
the `add` handler and then finding it by name returns a record with that
name and exactly that phone list. -/
theorem C9_roundtrip (book : AddressBook) (n p : String)
    (hn : n ≠ "") (hp : validate_phone p = true) :
    AddressBook.find (add_contact n p book).2 n = some ⟨n, [p], none⟩ := by
  rw [add_contact_snd]
  rw [if_pos (by simp [hn, hp])]
  exact find_add_record book ⟨n, [p], none⟩

/-- Witness for C9 on the empty store. -/
theorem C9_roundtrip_witness :
    AddressBook.find (add_contact "Ann" "1234567890" []).2 "Ann" =
      some ⟨"Ann", ["1234567890"], none⟩ :=
  C9_roundtrip [] "Ann" "1234567890" (by decide) (by decide)

/-- Looking up the updated key after `bookUpdate` sees the update. -/
theorem find_bookUpdate (book : AddressBook) (n : String) (f : Record → Record) :
    AddressBook.find (bookUpdate book n f) n = (AddressBook.find book n).map f := by
  induction book with
  | nil => rfl
  | cons e rest ih =>
    simp only [bookUpdate, List.map_cons]
    by_cases h : (e.1 == n) = true
    · rw [if_pos h]
      unfold AddressBook.find
      rw [if_pos h, if_pos h]
      rfl
    · rw [if_neg h]
      unfold AddressBook.find
      rw [if_neg h, if_neg h]
      exact ih

/-- C10: the `change` command on an existing contact with an invalid new
phone answers the validation error message, yet the stored record has
already lost all its phones: the phone list was emptied before the
validation failure. -/
theorem C10_partial_mutation (book : AddressBook) (n p : String) (r : Record)
    (hf : AddressBook.find book n = some r) (hp : validate_phone p = false) :
    (change_contact n p book).1 = "Give me name and phone please." ∧
    AddressBook.find (change_contact n p book).2 n = some { r with phones := [] } := by
  have h2 := find_bookUpdate book n (fun r0 => { r0 with phones := [] })
  simp only [change_contact, hf, hp]
  rw [if_neg (by simp)]
  refine ⟨rfl, ?_⟩
  rw [h2, hf]
  rfl

/-- Witness for C10: Ann's record goes from one valid phone to zero phones
while the handler reports the validation error. -/
theorem C10_partial_mutation_witness :
    (change_contact "Ann" "12" [("Ann", ⟨"Ann", ["1234567890"], none⟩)]).1 =
      "Give me name and phone please." ∧
    AddressBook.find
        (change_contact "Ann" "12" [("Ann", ⟨"Ann", ["1234567890"], none⟩)]).2 "Ann" =
      some ⟨"Ann", [], none⟩ :=
  C10_partial_mutation [("Ann", ⟨"Ann", ["1234567890"], none⟩)] "Ann" "12"
    ⟨"Ann", ["1234567890"], none⟩ (by decide) (by decide)

/-- Every month has at most 31 days. -/
theorem daysInMonth_le (y m : Nat) : daysInMonth y m ≤ 31 := by
  unfold daysInMonth
  split_ifs <;> omega

/-- The `dchar` of a digit value is a decimal digit character. -/
theorem dchar_isDigit {k : Nat} (h : k ≤ 9) : (dchar k).isDigit = true := by
  interval_cases k <;> decide

/-- The `dchar` has the expected code point. -/
theorem dchar_toNat {k : Nat} (h : k ≤ 9) : (dchar k).toNat = 48 + k := by
  interval_cases k <;> decide

/-- A zero-padded two-digit rendering of an in-range value is consumed by
the `%d`/`%m` field parser. -/
theorem parseDM_pad2 {maxv n : Nat} (rest : List Char) (h1 : 1 ≤ n) (h2 : n ≤ maxv)
    (h9 : n ≤ 99) :
    parseDM maxv (dchar (n / 10) :: dchar (n % 10) :: rest) = some (n, rest) := by
  have d1 : (dchar (n / 10)).isDigit = true := dchar_isDigit (by omega)
  have d2 : (dchar (n % 10)).isDigit = true := dchar_isDigit (by omega)
  have t1 : (dchar (n / 10)).toNat = 48 + n / 10 := dchar_toNat (by omega)
  have t2 : (dchar (n % 10)).toNat = 48 + n % 10 := dchar_toNat (by omega)
  unfold parseDM
  simp only [d1, d2, t1, t2, Nat.add_sub_cancel_left, if_true]
  rw [show n / 10 * 10 + n % 10 = n from by omega]
  rw [if_pos ⟨h1, h2⟩]

/-- A zero-padded four-digit rendering is consumed by the `%Y` parser. -/
theorem parseYear4_digits {y : Nat} (rest : List Char) (h : y ≤ 9999) :
    parseYear4 (dchar (y / 1000) :: dchar (y / 100 % 10) :: dchar (y / 10 % 10) ::
                dchar (y % 10) :: rest) = some (y, rest) := by
  have d1 : (dchar (y / 1000)).isDigit = true := dchar_isDigit (by omega)
  have d2 : (dchar (y / 100 % 10)).isDigit = true := dchar_isDigit (by omega)
  have d3 : (dchar (y / 10 % 10)).isDigit = true := dchar_isDigit (by omega)
  have d4 : (dchar (y % 10)).isDigit = true := dchar_isDigit (by omega)
  have t1 : (dchar (y / 1000)).toNat = 48 + y / 1000 := dchar_toNat (by omega)
  have t2 : (dchar (y / 100 % 10)).toNat = 48 + y / 100 % 10 := dchar_toNat (by omega)
  have t3 : (dchar (y / 10 % 10)).toNat = 48 + y / 10 % 10 := dchar_toNat (by omega)
  have t4 : (dchar (y % 10)).toNat = 48 + y % 10 := dchar_toNat (by omega)
  unfold parseYear4
  simp only [d1, d2, d3, d4, t1, t2, t3, t4, Nat.add_sub_cancel_left,
             Bool.and_self, if_true]
  rw [show y / 1000 * 1000 + y / 100 % 10 * 100 + y / 10 % 10 * 10 + y % 10 = y from by omega]

/-- C8 (amended): `validate_birthday` accepts every zero-padded
`DD.MM.YYYY` rendering of a real calendar date, rejects the impossible
date 31.02.2024, and — beyond the claimed strict pattern — also accepts
single-digit day/month forms such as "5.6.1990". -/
theorem C8_validate_amended :
    (∀ y m d : Nat, PyDate.valid ⟨y, m, d⟩ = true →
      validate_birthday (String.mk (pad2 d ++ '.' :: (pad2 m ++ '.' :: pad4 y))) = true) ∧
    validate_birthday "31.02.2024" = false ∧
    validate_birthday "5.6.1990" = true := by
  refine ⟨?_, by decide, by decide⟩
  intro y m d hv
  have hv' := of_decide_eq_true hv
  obtain ⟨h1, h2, h3, h4, h5, h6⟩ := hv'
  have h2' : y ≤ 9999 := h2
  have h3' : 1 ≤ m := h3
  have h4' : m ≤ 12 := h4
  have h5' : 1 ≤ d := h5
  have h6' : d ≤ daysInMonth y m := h6
  have hd31 : d ≤ 31 := le_trans h6' (daysInMonth_le y m)
  unfold validate_birthday strptime_dmY
  rw [show (String.mk (pad2 d ++ '.' :: (pad2 m ++ '.' :: pad4 y))).data
        = pad2 d ++ '.' :: (pad2 m ++ '.' :: pad4 y) from rfl]
  simp only [pad2, pad4, List.cons_append, List.nil_append]
  rw [parseDM_pad2 _ h5' hd31 (by omega)]
  simp only [Option.some_bind, parseDot]
  rw [parseDM_pad2 _ h3' h4' (by omega)]
  simp only [Option.some_bind, parseDot]
  rw [parseYear4_digits _ h2']
  simp only [Option.some_bind, checkDate, hv, if_true]
  rfl

/-- Witness for C8 (amended): the strict zero-padded rendering of
08.06.1995 is accepted by the validator. -/
theorem C8_validate_amended_witness :
    validate_birthday (String.mk (pad2 8 ++ '.' :: (pad2 6 ++ '.' :: pad4 1995))) = true :=
  C8_validate_amended.1 1995 6 8 (by decide)

/-- C8 counterexample: "5.6.1990" has a single-digit day and month, so the
claim says it is rejected; the code accepts it. -/
theorem C8_cex :
    validate_birthday "5.6.1990" = true ∧ strictForm "5.6.1990" = false := by
  decide

